import Mathlib

/-!
Shallow embedding of `src/lib/swiftpass.js`: a client for the Swiftpass
payment gateway.  JavaScript objects are modelled as association lists in
insertion order; JavaScript scalar values as the inductive `JVal`; the
external digest libraries (`md5`, `sha1`), the URI encoder and the XML
parser are modelled as explicit function parameters (they are external
capabilities of the program).
-/

set_option autoImplicit false

/-! ### String primitives

JavaScript string operations (`toUpperCase`, `split` with a one-character
separator, the default `Array.prototype.sort` comparison) are re-implemented
by structural recursion over `String.data`, so that every definition in this
file evaluates inside the kernel. -/

/-- JavaScript `String.prototype.toUpperCase` (ASCII, as produced by the hex digests). -/
def jsToUpper (s : String) : String :=
  String.mk (s.data.map Char.toUpper)

/-- Helper for `jsSplit`: accumulate the current piece in reverse. -/
def splitCharAux (sep : Char) : List Char → List Char → List String
  | [], acc => [String.mk acc.reverse]
  | c :: cs, acc =>
    if c = sep then String.mk acc.reverse :: splitCharAux sep cs []
    else splitCharAux sep cs (c :: acc)

/-- JavaScript `String.prototype.split` with a one-character separator: `"".split`
yields `[""]`, like JavaScript. -/
def jsSplit (sep : Char) (s : String) : List String :=
  splitCharAux sep s.data []

/-- Lexicographic comparison of character lists by code point, the order
used by the default `Array.prototype.sort` on the ASCII keys at hand. -/
def lexLt : List Char → List Char → Bool
  | [], [] => false
  | [], _ :: _ => true
  | _ :: _, [] => false
  | a :: as, b :: bs =>
    if a.toNat < b.toNat then true
    else if b.toNat < a.toNat then false
    else lexLt as bs

/-- Strict string comparison. -/
def strLtB (a b : String) : Bool :=
  lexLt a.data b.data

/-- The non-strict order used to sort keys: `a ≤ b` iff `¬ b < a`. -/
def strLeP (a b : String) : Prop :=
  strLtB b a = false

instance : DecidableRel strLeP :=
  fun a b => inferInstanceAs (Decidable (strLtB b a = false))

/-- The default `Array.prototype.sort()` on a key list (lexicographic ascending). -/
def sortKeys (l : List String) : List String :=
  l.insertionSort strLeP

/-- A JavaScript scalar value as used by the swiftpass client. -/
inductive JVal where
  | undef
  | null
  | str (s : String)
  | num (n : Int)
  | bool (b : Bool)
deriving DecidableEq

/-- JavaScript string coercion (`'' + v` / `v.toString()` rendering). -/
def jstr : JVal → String
  | JVal.undef => "undefined"
  | JVal.null => "null"
  | JVal.str s => s
  | JVal.num n => n.repr
  | JVal.bool b => cond b "true" "false"

/-- JavaScript truthiness for the values of `JVal`. -/
def truthy : JVal → Bool
  | JVal.undef => false
  | JVal.null => false
  | JVal.str s => !(s == "")
  | JVal.num n => !(n == 0)
  | JVal.bool b => b

/-- The filter used by `_toQueryString`: `v !== undefined && v !== ''`.
Only `undefined` and the empty string are dropped; `null` is kept. -/
def keepVal : JVal → Bool
  | JVal.undef => false
  | JVal.str s => !(s == "")
  | _ => true

/-- The coercion loop of `_signedQuery`: every value other than
`undefined` and `null` is replaced by its `.toString()` form. -/
def coerceVal : JVal → JVal
  | JVal.undef => JVal.undef
  | JVal.null => JVal.null
  | v => JVal.str (jstr v)

/-- A JavaScript object: an association list in insertion order. -/
abbrev Obj : Type := List (String × JVal)

/-- Reading `object[key]` as an `Option`: the first binding of `k`, if any. -/
def getVOpt : Obj → String → Option JVal
  | [], _ => none
  | (k', v) :: rest, k => if k = k' then some v else getVOpt rest k

/-- Reading `object[key]`: an absent key reads as `undefined`. -/
def getV (o : Obj) (k : String) : JVal :=
  (getVOpt o k).getD JVal.undef

/-- The `Object.keys` list in insertion order. -/
def keysOf (o : Obj) : List String :=
  o.map Prod.fst

/-- A real JavaScript object binds each key at most once. -/
def NodupKeys (o : Obj) : Prop :=
  (keysOf o).Nodup

/-- Assignment `object[k] = v`: replace in place when the key exists, else append. -/
def setKey (o : Obj) (k : String) (v : JVal) : Obj :=
  if (getVOpt o k).isSome then
    o.map (fun p => if p.1 = k then (k, v) else p)
  else
    o ++ [(k, v)]

/-- Underscore `_.extend(dest, src)`: assign every binding of `src` onto `dest`. -/
def extend (dest src : Obj) : Obj :=
  src.foldl (fun acc p => setKey acc p.1 p.2) dest

/-- Deletion `delete obj[k]`. -/
def eraseKey (o : Obj) (k : String) : Obj :=
  o.filter (fun p => !(p.1 == k))

/-- The coercion loop of `_signedQuery` applied to a whole object. -/
def coerceObj (o : Obj) : Obj :=
  o.map (fun p => (p.1, coerceVal p.2))

/-- The encoder `_toQueryString` (swiftpass.js lines 322-328): keep the keys whose
value is neither `undefined` nor `''`, sort them, render `k=v` pairs and
join with `&`. -/
def toQueryString (o : Obj) : String :=
  String.intercalate "&"
    ((sortKeys ((keysOf o).filter (fun k => keepVal (getV o k)))).map
      (fun k => k ++ "=" ++ jstr (getV o k)))

/-- The digest algorithms of the `signTypes` table (`SignType` itself is
taken by Mathlib, hence the name `SignAlg`). -/
inductive SignAlg where
  | MD5
  | SHA1

/-- A digest capability: the external `md5`/`sha1` libraries, producing a
hex string for an input string. -/
def Digest : Type := SignAlg → String → String

/-- The signer `_getSign` (swiftpass.js lines 312-320): clone, delete `sign`,
default the algorithm to MD5, canonicalize, append `&key=<secret>`,
digest, uppercase. -/
def getSign (digest : Digest) (partnerKey : String) (pkg : Obj)
    (signType : Option SignAlg) : String :=
  let pkg2 := eraseKey pkg "sign"
  let st := signType.getD SignAlg.MD5
  let string1 := toQueryString pkg2
  let stringSignTemp := string1 ++ "&key=" ++ partnerKey
  jsToUpper (digest st stringSignTemp)

/-- The account credentials fixed by the `Swiftpass` constructor.
`subMchId` is referenced by `_extendWithDefault` but never assigned by
the constructor, so for constructed clients it is `undef`. -/
structure Config where
  subAppId : JVal
  partnerKey : String
  mchId : JVal
  notifyUrl : JVal
  subMchId : JVal
  pfx : JVal

/-- The `defaults` object literal of `_extendWithDefault`, read through
`defaults[k]` (absent keys read as `undefined`).  The per-call random
nonce is passed in explicitly. -/
def defaultsMap (cfg : Config) (nonce : String) : String → JVal := fun k =>
  if k = "sub_appid" then cfg.subAppId
  else if k = "mch_id" then cfg.mchId
  else if k = "sub_mch_id" then cfg.subMchId
  else if k = "nonce_str" then JVal.str nonce
  else if k = "notify_url" then cfg.notifyUrl
  else if k = "op_user_id" then cfg.mchId
  else if k = "pfx" then cfg.pfx
  else JVal.undef

/-- The `extendObject` accumulation of `_extendWithDefault`: for each
whitelisted key with a truthy default, assign it on a fresh object. -/
def buildDefaults (d : String → JVal) (ks : List String) : Obj :=
  ks.foldl (fun acc k => if truthy (d k) then setKey acc k (d k) else acc) []

/-- The expander `_extendWithDefault` (swiftpass.js lines 293-310). -/
def extendWithDefault (cfg : Config) (nonce : String) (obj : Obj)
    (ks : List String) : Obj :=
  extend (buildDefaults (defaultsMap cfg nonce) ks) obj

/-- The parameter-processing prefix of `_signedQuery` (lines 137-156):
set `service`, expand defaults, inject the signature, URI-encode
`long_url`, then coerce every value to a string. -/
def signedQueryParams (digest : Digest) (cfg : Config) (nonce : String)
    (encURI : String → String) (service : JVal) (params0 : Obj) : Obj :=
  let params1 := setKey params0 "service" service
  let params2 := extendWithDefault cfg nonce params1 ["mch_id", "nonce_str", "sub_appid"]
  let params3 := extend [("sign", JVal.str (getSign digest cfg.partnerKey params2 none))] params2
  let params4 :=
    if truthy (getV params3 "long_url") then
      setKey params3 "long_url" (JVal.str (encURI (jstr (getV params3 "long_url"))))
    else params3
  coerceObj params4

/-- The required-group scan of `_signedQuery` (lines 158-167): a group
is unsatisfied when no `|`-alternative maps to a truthy value. -/
def missingOf (required : List String) (p : Obj) : List String :=
  required.filter (fun g => !((jsSplit '|' g).any (fun k => truthy (getV p k))))

/-- Observable outcome of `_signedQuery`: either the aggregated
validation error (no transport invoked), or a transport invocation
(plain or certificate-bearing) carrying the mapping handed to the XML
serializer. -/
inductive QueryResult where
  | validationError (msg : String)
  | transported (secure : Bool) (payload : Obj)

/-- The dispatcher `_signedQuery` (swiftpass.js lines 134-181), up to the external
transport boundary. -/
def signedQuery (digest : Digest) (cfg : Config) (nonce : String)
    (encURI : String → String) (service : JVal) (params : Obj)
    (https : Bool) (required : List String) : QueryResult :=
  let p := signedQueryParams digest cfg nonce encURI service params
  let missing := missingOf required p
  if missing.isEmpty then QueryResult.transported https p
  else QueryResult.validationError ("missing params " ++ String.intercalate "," missing)

/-- The five transaction operations of the facade. -/
inductive Op where
  | unifiedOrder
  | orderQuery
  | refund
  | refundQuery
  | closeOrder

/-- Per-operation parameter preprocessing: `unifiedOrder` assigns
`params.notify_url = params.notify_url || this.notifyUrl`; `refund`
expands the `op_user_id` default; the others pass params through. -/
def opPre (cfg : Config) (nonce : String) : Op → Obj → Obj
  | Op.unifiedOrder, params =>
      setKey params "notify_url"
        (if truthy (getV params "notify_url") then getV params "notify_url" else cfg.notifyUrl)
  | Op.refund, params => extendWithDefault cfg nonce params ["op_user_id"]
  | _, params => params

/-- The service code each operation passes to `_signedQuery`;
`unifiedOrder` uses `params['service'] || URLS.JS_PAY`. -/
def opService : Op → Obj → JVal
  | Op.unifiedOrder, params =>
      if truthy (getV params "service") then getV params "service"
      else JVal.str "pay.weixin.jspay"
  | Op.orderQuery, _ => JVal.str "unified.trade.query"
  | Op.refund, _ => JVal.str "unified.trade.refund"
  | Op.refundQuery, _ => JVal.str "unified.trade.refundquery"
  | Op.closeOrder, _ => JVal.str "unified.trade.close"

/-- Whether the operation selects the certificate transport
(`options.https`); only `refund` does. -/
def opHttps : Op → Bool
  | Op.refund => true
  | _ => false

/-- The `required` list each operation passes to `_signedQuery`. -/
def opRequired : Op → List String
  | Op.unifiedOrder => ["body", "out_trade_no", "total_fee", "mch_create_ip", "mch_id", "service"]
  | Op.orderQuery => ["transaction_id|out_trade_no"]
  | Op.refund => ["transaction_id|out_trade_no", "out_refund_no", "total_fee", "refund_fee"]
  | Op.refundQuery => ["transaction_id|out_trade_no|out_refund_no|refund_id"]
  | Op.closeOrder => ["out_trade_no"]

/-- A facade operation (swiftpass.js lines 183-218): preprocess, then
run `_signedQuery` with the operation's service code, transport flag and
required groups. -/
def runOp (digest : Digest) (cfg : Config) (nonce : String)
    (encURI : String → String) (op : Op) (params : Obj) : QueryResult :=
  let p := opPre cfg nonce op params
  signedQuery digest cfg nonce encURI (opService op p) p (opHttps op) (opRequired op)

/-! ### CSV decoding (`parseCsv`) -/

/-- The backquote character that delimits CSV cell values. -/
def backquote : Char := Char.ofNat 96

/-- JavaScript whitespace stripping (`String.prototype.trim`), over the
ASCII whitespace that can surround a CSV body. -/
def jsTrim (s : String) : String :=
  let ws := fun c : Char => c = ' ' || c = '\t' || c = '\n' || c = '\r'
  String.mk (((s.data.dropWhile ws).reverse.dropWhile ws).reverse)

/-- The row split `text.split(/\r?\n/)`: split on `'\n'` and strip one trailing
`'\r'` from each piece. -/
def splitLines (s : String) : List String :=
  (jsSplit '\n' s).map (fun piece =>
    match piece.data.reverse with
    | '\r' :: rest => String.mk rest.reverse
    | _ => piece)

/-- Indexing `titles[i]`: an out-of-range index reads as `undefined`, which
JavaScript coerces to the property key `"undefined"`. -/
def titleAt (titles : List String) (i : Nat) : String :=
  (titles.get? i).getD "undefined"

/-- The cell read `cell.split('\x60')[1]`: the text after the first backquote, or
`undefined` when the cell has none. -/
def cellValue (cell : String) : JVal :=
  match jsSplit backquote cell with
  | _ :: v :: _ => JVal.str v
  | _ => JVal.undef

/-- One data row of `toArr`: zip the comma-split cells with the titles
positionally and assign each backquote value. -/
def rowToObj (titles : List String) (row : String) : Obj :=
  (jsSplit ',' row).enum.foldl
    (fun acc p => setKey acc (titleAt titles p.1) (cellValue p.2)) []

/-- The inner `toArr` of `parseCsv`: the first row gives the titles, the
remaining rows become data objects.  `none` models the `TypeError`
thrown by `rows[0].split` when the row list is empty. -/
def toArr : List String → Option (List Obj)
  | [] => none
  | titlesRow :: bodys =>
    let titles := jsSplit ',' titlesRow
    some (bodys.map (fun row => rowToObj titles row))

/-- The result shape of `parseCsv`; `stat` is `none` when the trailing
table has no data row (`toArr(...)[0]` is `undefined`). -/
structure CsvResult where
  list : List Obj
  stat : Option Obj

/-- The decoder `parseCsv` (swiftpass.js lines 220-242): trim, split on line
breaks, parse all but the final two rows as the data table and the final
two rows as the statistics table, and take the first statistics row. -/
def parseCsv (text : String) : Option CsvResult :=
  let rows := splitLines (jsTrim text)
  match toArr (rows.take (rows.length - 2)), toArr (rows.drop (rows.length - 2)) with
  | some l, some s => some ⟨l, s.head?⟩
  | _, _ => none

/-! ### XML response decoding (`validate`) -/

/-- The JavaScript values produced by the XML parser capability
(`xml2js.parseString` with `trim` and without `explicitArray`). -/
inductive Json where
  | jnull
  | jstr (s : String)
  | jobj (fields : List (String × Json))

/-- Truthiness of a parsed value. -/
def jsonTruthy : Json → Bool
  | Json.jnull => false
  | Json.jstr s => !(s == "")
  | Json.jobj _ => true

/-- The first binding of a key in a parsed object's field list. -/
def jgetFields : List (String × Json) → String → Option Json
  | [], _ => none
  | (k', v) :: rest, k => if k = k' then some v else jgetFields rest k

/-- Property access on a parsed value: `none` is `undefined`. -/
def jget : Json → String → Option Json
  | Json.jobj fields, k => jgetFields fields k
  | _, _ => none

/-- Truthiness of a property-access result. -/
def jgetTruthy : Option Json → Bool
  | none => false
  | some j => jsonTruthy j

/-- An error value handed to the callback: its `name` and message. -/
structure JsError where
  name : String
  message : String
deriving DecidableEq

/-- What `validate` does observably: invoke the callback, or throw a
`TypeError` while reading `data.pay_info` off `undefined`/`null`. -/
inductive ValidateOutcome where
  | thrown
  | cb (error : Option JsError) (data : Json)

/-- The decoder `validate` (swiftpass.js lines 254-285): a parse failure is renamed
`XMLParseError` and reported with the raw body; otherwise the `xml`
envelope is unwrapped and a falsy `pay_info` yields the
`missParamError` domain error alongside the parsed data. -/
def validate (parse : String → Except String Json) (xml : String) : ValidateOutcome :=
  match parse xml with
  | Except.error msg => ValidateOutcome.cb (some ⟨"XMLParseError", msg⟩) (Json.jstr xml)
  | Except.ok json =>
    let dataOpt : Option Json :=
      if jsonTruthy json then jget json "xml" else some (Json.jobj [])
    match dataOpt with
    | none => ValidateOutcome.thrown
    | some Json.jnull => ValidateOutcome.thrown
    | some data =>
      if jgetTruthy (jget data "pay_info") then ValidateOutcome.cb none data
      else ValidateOutcome.cb (some ⟨"missParamError", "请传入支付方式"⟩) data

/-! ### Spec-side and auxiliary definitions

The spec-side definitions follow the wording of the specification or of a
claim, to be compared with the definitions translated from the source; the
fixed concrete values are used by witnesses and counterexamples. -/

/-- The Signature Engine contract of spec 4.2, as the spec words it:
remove any existing `sign` key, canonicalize, append the secret, digest
with the selected algorithm (MD5 by default), uppercase the hex digest. -/
def signPerSpec (digest : Digest) (secret : String) (fields : Obj)
    (alg : Option SignAlg) : String :=
  jsToUpper (digest (alg.getD SignAlg.MD5)
    (toQueryString (eraseKey fields "sign") ++ "&key=" ++ secret))

/-- The value filter claim C3 asserts for the canonical encoder: keys
whose value is `undefined`, `null` or the empty string are omitted. -/
def keepValClaimC3 : JVal → Bool
  | JVal.undef => false
  | JVal.null => false
  | JVal.str s => !(s == "")
  | _ => true

/-- The canonical query encoder exactly as claim C3 states it: sort the
keys, omit `undefined`/`null`/empty values, render `k=v` joined by `&`. -/
def toQueryStringClaimC3 (o : Obj) : String :=
  String.intercalate "&"
    (((sortKeys (keysOf o)).filter (fun k => keepValClaimC3 (getV o k))).map
      (fun k => k ++ "=" ++ jstr (getV o k)))

/-- The canonical query encoder as amended: only `undefined` and the
empty string are omitted; `null` is kept and rendered as `null`. -/
def toQueryStringAmendedC3 (o : Obj) : String :=
  String.intercalate "&"
    (((sortKeys (keysOf o)).filter (fun k => keepVal (getV o k))).map
      (fun k => k ++ "=" ++ jstr (getV o k)))

instance (o : Obj) : Decidable (NodupKeys o) :=
  inferInstanceAs (Decidable ((keysOf o).Nodup))

/-- A fixed digest capability for concrete evaluations: echoes its input. -/
def cexDigest : Digest := fun _ s => s

/-- A fixed account configuration for concrete evaluations. -/
def cexConfig : Config :=
  ⟨JVal.str "SUB", "KEY", JVal.str "MCH", JVal.str "http://cb", JVal.undef, JVal.undef⟩

/-- An account whose merchant id is `Y`, for the claim C9 example. -/
def cexConfigY : Config :=
  ⟨JVal.undef, "K", JVal.str "Y", JVal.undef, JVal.undef, JVal.undef⟩

/-- The processed parameter mapping a facade operation hands to the XML
serializer and the required-group scan. -/
def runOpParams (digest : Digest) (cfg : Config) (nonce : String)
    (encURI : String → String) (op : Op) (params : Obj) : Obj :=
  let p := opPre cfg nonce op params
  signedQueryParams digest cfg nonce encURI (opService op p) p

/-- The unsatisfied required groups a facade operation reports. -/
def runOpMissing (digest : Digest) (cfg : Config) (nonce : String)
    (encURI : String → String) (op : Op) (params : Obj) : List String :=
  missingOf (opRequired op) (runOpParams digest cfg nonce encURI op params)

/-- True exactly on the validation-error outcome. -/
def isValidationError : QueryResult → Bool
  | QueryResult.validationError _ => true
  | QueryResult.transported _ _ => false

/-- The pipeline exactly as claim C5 orders it: expand defaults, set
`service`, validate the required groups, then sign, URI-encode
`long_url`, coerce and transport. -/
def signedQueryClaimOrder (digest : Digest) (cfg : Config) (nonce : String)
    (encURI : String → String) (service : JVal) (params : Obj)
    (https : Bool) (required : List String) : QueryResult :=
  let p1 := extendWithDefault cfg nonce params ["mch_id", "nonce_str", "sub_appid"]
  let p2 := setKey p1 "service" service
  let missing := missingOf required p2
  if missing.isEmpty then
    let p3 := extend [("sign", JVal.str (getSign digest cfg.partnerKey p2 none))] p2
    let p4 :=
      if truthy (getV p3 "long_url") then
        setKey p3 "long_url" (JVal.str (encURI (jstr (getV p3 "long_url"))))
      else p3
    QueryResult.transported https (coerceObj p4)
  else QueryResult.validationError ("missing params " ++ String.intercalate "," missing)

/-- A facade operation under claim C5's pipeline order. -/
def runOpClaimOrder (digest : Digest) (cfg : Config) (nonce : String)
    (encURI : String → String) (op : Op) (params : Obj) : QueryResult :=
  let p := opPre cfg nonce op params
  signedQueryClaimOrder digest cfg nonce encURI (opService op p) p (opHttps op) (opRequired op)

/-- The pipeline as amended for claim C5: expand defaults, set
`service`, sign, URI-encode `long_url`, coerce to strings, and only then
validate; a validation failure still prevents the transport. -/
def signedQueryAmendedOrder (digest : Digest) (cfg : Config) (nonce : String)
    (encURI : String → String) (service : JVal) (params : Obj)
    (https : Bool) (required : List String) : QueryResult :=
  let p1 := extendWithDefault cfg nonce params ["mch_id", "nonce_str", "sub_appid"]
  let p2 := setKey p1 "service" service
  let p3 := extend [("sign", JVal.str (getSign digest cfg.partnerKey p2 none))] p2
  let p4 :=
    if truthy (getV p3 "long_url") then
      setKey p3 "long_url" (JVal.str (encURI (jstr (getV p3 "long_url"))))
    else p3
  let p5 := coerceObj p4
  let missing := missingOf required p5
  if missing.isEmpty then QueryResult.transported https p5
  else QueryResult.validationError ("missing params " ++ String.intercalate "," missing)

/-- A facade operation under the amended pipeline order. -/
def runOpAmendedOrder (digest : Digest) (cfg : Config) (nonce : String)
    (encURI : String → String) (op : Op) (params : Obj) : QueryResult :=
  let p := opPre cfg nonce op params
  signedQueryAmendedOrder digest cfg nonce encURI (opService op p) p (opHttps op) (opRequired op)

/-- A parser capability that always fails, for the C6 witness. -/
def parseFailCex : String → Except String Json := fun _ => Except.error "not xml"

/-- A parser capability returning a well-formed envelope without a
`pay_info` field, for the C6 witness. -/
def parseOkCex : String → Except String Json :=
  fun _ => Except.ok (Json.jobj [("xml", Json.jobj [("return_code", Json.jstr "SUCCESS")])])

/-- The CSV body of the claim C7 example. -/
def csvClaimInput : String := "h1,h2\r\nx`1,y`2\r\ns1`A,s2`B\r\ns1`C,s2`D"

/-! ### Properties of the key order -/

theorem lexLt_irrefl (l : List Char) : lexLt l l = false := by
  induction l with
  | nil => rfl
  | cons a as ih => simp [lexLt, ih]

theorem lexLt_asymm {a b : List Char} (h : lexLt a b = true) : lexLt b a = false := by
  induction a generalizing b with
  | nil =>
    cases b with
    | nil => simp [lexLt] at h
    | cons y ys => rfl
  | cons x xs ih =>
    cases b with
    | nil => simp [lexLt] at h
    | cons y ys =>
      by_cases hxy : x.toNat < y.toNat
      · have : ¬ y.toNat < x.toNat := Nat.lt_asymm hxy
        simp [lexLt, hxy, this]
      · by_cases hyx : y.toNat < x.toNat
        · simp [lexLt, hxy, hyx] at h
        · simp [lexLt, hxy, hyx] at h ⊢
          exact ih h

theorem lexLt_trans {a b c : List Char} (h₁ : lexLt a b = true) (h₂ : lexLt b c = true) :
    lexLt a c = true := by
  induction a generalizing b c with
  | nil =>
    cases c with
    | nil =>
      cases b with
      | nil => simp [lexLt] at h₁
      | cons y ys => simp [lexLt] at h₂
    | cons z zs => rfl
  | cons x xs ih =>
    cases b with
    | nil => simp [lexLt] at h₁
    | cons y ys =>
      cases c with
      | nil => simp [lexLt] at h₂
      | cons z zs =>
        by_cases hxy : x.toNat < y.toNat
        · by_cases hyz : y.toNat < z.toNat
          · simp [lexLt, Nat.lt_trans hxy hyz]
          · by_cases hzy : z.toNat < y.toNat
            · simp [lexLt, hyz, hzy] at h₂
            · have hyz' : y.toNat = z.toNat := Nat.le_antisymm (Nat.le_of_not_lt hzy) (Nat.le_of_not_lt hyz)
              simp [lexLt, hyz' ▸ hxy]
        · by_cases hyx : y.toNat < x.toNat
          · simp [lexLt, hxy, hyx] at h₁
          · have hxy' : x.toNat = y.toNat := Nat.le_antisymm (Nat.le_of_not_lt hyx) (Nat.le_of_not_lt hxy)
            simp [lexLt, hxy, hyx] at h₁
            by_cases hyz : y.toNat < z.toNat
            · simp [lexLt, hxy' ▸ hyz]
            · by_cases hzy : z.toNat < y.toNat
              · simp [lexLt, hyz, hzy] at h₂
              · simp [lexLt, hyz, hzy] at h₂
                simp [lexLt, hxy' ▸ hyz, hxy' ▸ hzy]
                exact ih h₁ h₂

theorem lexLt_eq_of_not {a b : List Char} (h₁ : lexLt a b = false) (h₂ : lexLt b a = false) :
    a = b := by
  induction a generalizing b with
  | nil =>
    cases b with
    | nil => rfl
    | cons y ys => simp [lexLt] at h₁
  | cons x xs ih =>
    cases b with
    | nil => simp [lexLt] at h₂
    | cons y ys =>
      by_cases hxy : x.toNat < y.toNat
      · simp [lexLt, hxy] at h₁
      · by_cases hyx : y.toNat < x.toNat
        · simp [lexLt, hyx] at h₂
        · have hx : x = y := by
            have : x.toNat = y.toNat := Nat.le_antisymm (Nat.le_of_not_lt hyx) (Nat.le_of_not_lt hxy)
            exact Char.eq_of_val_eq (UInt32.ext this)
          simp [lexLt, hxy, hyx] at h₁ h₂
          exact hx ▸ congrArg (x :: ·) (ih h₁ h₂)

theorem string_eq_of_data_eq {a b : String} (h : a.data = b.data) : a = b := by
  cases a
  cases b
  exact congrArg String.mk h

instance : IsTotal String strLeP := by
  constructor
  intro a b
  cases h : lexLt a.data b.data with
  | true => exact Or.inl (lexLt_asymm h)
  | false => exact Or.inr h

instance : IsTrans String strLeP := by
  constructor
  intro a b c h₁ h₂
  have h₁' : lexLt b.data a.data = false := h₁
  have h₂' : lexLt c.data b.data = false := h₂
  show lexLt c.data a.data = false
  cases hc : lexLt c.data a.data with
  | false => rfl
  | true =>
    exfalso
    cases hbc : lexLt b.data c.data with
    | true => exact absurd (lexLt_trans hbc hc) (by simp [h₁'])
    | false =>
      have hbc' : b.data = c.data := lexLt_eq_of_not hbc h₂'
      exact absurd (hbc' ▸ hc) (by simp [h₁'])

instance : IsAntisymm String strLeP := by
  constructor
  intro a b h₁ h₂
  have h₁' : lexLt b.data a.data = false := h₁
  have h₂' : lexLt a.data b.data = false := h₂
  exact string_eq_of_data_eq (lexLt_eq_of_not h₂' h₁')

theorem sortKeys_sorted (l : List String) : List.Sorted strLeP (sortKeys l) :=
  List.sorted_insertionSort strLeP l

theorem sortKeys_perm (l : List String) : (sortKeys l).Perm l :=
  List.perm_insertionSort strLeP l

theorem sortKeys_eq_of_perm {l l' : List String} (h : l.Perm l') :
    sortKeys l = sortKeys l' :=
  List.eq_of_perm_of_sorted ((sortKeys_perm l).trans (h.trans (sortKeys_perm l').symm))
    (sortKeys_sorted l) (sortKeys_sorted l')

/-! ### Association-list lemmas -/

@[simp]
theorem getVOpt_nil (k : String) : getVOpt [] k = none := rfl

@[simp]
theorem getVOpt_cons (a : String) (b : JVal) (rest : Obj) (k : String) :
    getVOpt ((a, b) :: rest) k = if k = a then some b else getVOpt rest k := rfl

theorem getVOpt_isSome_iff {o : Obj} {k : String} :
    (getVOpt o k).isSome = true ↔ k ∈ keysOf o := by
  induction o with
  | nil => simp [keysOf]
  | cons p rest ih =>
    obtain ⟨a, b⟩ := p
    by_cases h : k = a
    · subst h
      simp [keysOf]
    · simp [keysOf, h, ih]

theorem getVOpt_eq_none_iff {o : Obj} {k : String} :
    getVOpt o k = none ↔ k ∉ keysOf o := by
  rw [← getVOpt_isSome_iff]
  cases getVOpt o k <;> simp

theorem getVOpt_mapReplace_self (o : Obj) (k : String) (v : JVal) :
    getVOpt (o.map (fun p => if p.1 = k then (k, v) else p)) k =
      (getVOpt o k).map (fun _ => v) := by
  induction o with
  | nil => rfl
  | cons p rest ih =>
    obtain ⟨a, b⟩ := p
    by_cases h : a = k
    · subst h
      simp [ih]
    · have h' : ¬ k = a := fun hh => h hh.symm
      simp only [List.map_cons, if_neg h, getVOpt_cons, if_neg h']
      exact ih

theorem getVOpt_mapReplace_other (o : Obj) (k : String) (v : JVal) {k' : String}
    (hk : k' ≠ k) :
    getVOpt (o.map (fun p => if p.1 = k then (k, v) else p)) k' = getVOpt o k' := by
  induction o with
  | nil => rfl
  | cons p rest ih =>
    obtain ⟨a, b⟩ := p
    by_cases h : a = k
    · subst h
      simp [hk, ih]
    · by_cases h2 : k' = a
      · simp [h, h2]
      · simp [h, h2, ih]

theorem getVOpt_append (o o₂ : Obj) (k : String) :
    getVOpt (o ++ o₂) k =
      (match getVOpt o k with
        | some v => some v
        | none => getVOpt o₂ k) := by
  induction o with
  | nil => rfl
  | cons p rest ih =>
    obtain ⟨a, b⟩ := p
    by_cases h : k = a
    · simp [h]
    · simp [h, ih]

theorem getVOpt_setKey (o : Obj) (k : String) (v : JVal) (k' : String) :
    getVOpt (setKey o k v) k' = if k' = k then some v else getVOpt o k' := by
  rw [setKey]
  by_cases hs : (getVOpt o k).isSome = true
  · rw [if_pos hs]
    by_cases h : k' = k
    · subst h
      rw [if_pos rfl, getVOpt_mapReplace_self]
      obtain ⟨w, hw⟩ := Option.isSome_iff_exists.mp hs
      simp [hw]
    · rw [if_neg h, getVOpt_mapReplace_other _ _ _ h]
  · rw [if_neg hs]
    have hnone : getVOpt o k = none := by
      cases hh : getVOpt o k
      · rfl
      · exact absurd (by simp [hh]) hs
    rw [getVOpt_append]
    by_cases h : k' = k
    · subst h
      simp [hnone]
    · cases hh : getVOpt o k'
      · simp [h]
      · simp [h]

theorem keysOf_mapReplace (o : Obj) (k : String) (v : JVal) :
    keysOf (o.map (fun p => if p.1 = k then (k, v) else p)) = keysOf o := by
  induction o with
  | nil => rfl
  | cons p rest ih =>
    obtain ⟨a, b⟩ := p
    by_cases h : a = k
    · subst h
      simp [keysOf] at ih ⊢
      exact ih
    · simp [keysOf, h] at ih ⊢
      exact ih

theorem keysOf_setKey (o : Obj) (k : String) (v : JVal) :
    keysOf (setKey o k v) = if k ∈ keysOf o then keysOf o else keysOf o ++ [k] := by
  rw [setKey]
  by_cases hs : (getVOpt o k).isSome = true
  · rw [if_pos hs, if_pos (getVOpt_isSome_iff.mp hs), keysOf_mapReplace]
  · have hm : ¬ k ∈ keysOf o := fun hm => hs (getVOpt_isSome_iff.mpr hm)
    rw [if_neg hs, if_neg hm]
    simp [keysOf]

theorem nodupKeys_setKey {o : Obj} (k : String) (v : JVal) (h : NodupKeys o) :
    NodupKeys (setKey o k v) := by
  unfold NodupKeys at h ⊢
  rw [keysOf_setKey]
  by_cases hm : k ∈ keysOf o
  · rwa [if_pos hm]
  · rw [if_neg hm]
    simpa [List.nodup_append] using ⟨h, hm⟩

theorem getVOpt_extend {s : Obj} (d : Obj) (k : String) (h : NodupKeys s) :
    getVOpt (extend d s) k =
      (match getVOpt s k with
        | some v => some v
        | none => getVOpt d k) := by
  induction s generalizing d with
  | nil => rfl
  | cons p rest ih =>
    obtain ⟨a, b⟩ := p
    have hrest : NodupKeys rest := by
      unfold NodupKeys keysOf at h ⊢
      exact (List.nodup_cons.mp h).2
    have hna : a ∉ keysOf rest := by
      unfold NodupKeys keysOf at h
      exact (List.nodup_cons.mp h).1
    show getVOpt (extend (setKey d a b) rest) k = _
    rw [ih (setKey d a b) hrest]
    by_cases hk : k = a
    · subst hk
      have hnone : getVOpt rest k = none := getVOpt_eq_none_iff.mpr hna
      simp [hnone, getVOpt_setKey]
    · cases hh : getVOpt rest k
      · simp [hh, getVOpt_setKey, hk]
      · simp [hh, hk]

theorem nodupKeys_extend {d : Obj} (s : Obj) (h : NodupKeys d) :
    NodupKeys (extend d s) := by
  induction s generalizing d with
  | nil => exact h
  | cons p rest ih => exact ih (nodupKeys_setKey p.1 p.2 h)

theorem getVOpt_buildDefaults_aux (d : String → JVal) (ks : List String) (acc : Obj)
    (k : String) :
    getVOpt (ks.foldl (fun acc k => if truthy (d k) then setKey acc k (d k) else acc) acc) k =
      if k ∈ ks ∧ truthy (d k) = true then some (d k) else getVOpt acc k := by
  induction ks generalizing acc with
  | nil => simp
  | cons a rest ih =>
    show getVOpt (rest.foldl _ (if truthy (d a) then setKey acc a (d a) else acc)) k = _
    rw [ih]
    by_cases hmem : k ∈ rest ∧ truthy (d k) = true
    · rw [if_pos hmem, if_pos ⟨List.mem_cons_of_mem a hmem.1, hmem.2⟩]
    · rw [if_neg hmem]
      by_cases hk : k = a
      · subst hk
        by_cases ht : truthy (d k) = true
        · have h1 : k ∈ k :: rest ∧ truthy (d k) = true := ⟨List.mem_cons_self k rest, ht⟩
          rw [if_pos h1, if_pos ht, getVOpt_setKey, if_pos rfl]
        · have h1 : ¬ (k ∈ k :: rest ∧ truthy (d k) = true) := fun hc => ht hc.2
          rw [if_neg ht, if_neg h1]
      · have h1 : ¬ (k ∈ a :: rest ∧ truthy (d k) = true) := by
          intro hc
          rcases List.mem_cons.mp hc.1 with h2 | h2
          · exact hk h2
          · exact hmem ⟨h2, hc.2⟩
        rw [if_neg h1]
        by_cases ht : truthy (d a) = true
        · rw [if_pos ht, getVOpt_setKey, if_neg hk]
        · rw [if_neg ht]

theorem getVOpt_buildDefaults (d : String → JVal) (ks : List String) (k : String) :
    getVOpt (buildDefaults d ks) k =
      if k ∈ ks ∧ truthy (d k) = true then some (d k) else none := by
  rw [buildDefaults, getVOpt_buildDefaults_aux]
  rfl

theorem nodupKeys_buildDefaults (d : String → JVal) (ks : List String) :
    NodupKeys (buildDefaults d ks) := by
  have aux : ∀ (l : List String) (acc : Obj), NodupKeys acc →
      NodupKeys (l.foldl (fun acc k => if truthy (d k) then setKey acc k (d k) else acc) acc) := by
    intro l
    induction l with
    | nil => exact fun acc h => h
    | cons a rest ih =>
      intro acc h
      show NodupKeys (rest.foldl _ (if truthy (d a) then setKey acc a (d a) else acc))
      by_cases ht : truthy (d a) = true
      · rw [if_pos ht]
        exact ih _ (nodupKeys_setKey a (d a) h)
      · rw [if_neg ht]
        exact ih _ h
  exact aux ks [] (by simp [NodupKeys, keysOf])

/-! ### Permutation invariance -/

theorem getVOpt_perm {o o' : Obj} (h : o.Perm o') (k : String) :
    NodupKeys o → getVOpt o k = getVOpt o' k := by
  induction h with
  | nil => exact fun _ => rfl
  | cons p hperm ih =>
    intro hnd
    obtain ⟨a, b⟩ := p
    have h1 : NodupKeys _ := (List.nodup_cons.mp hnd).2
    by_cases hk : k = a
    · simp [hk]
    · simp [hk, ih h1]
  | swap p q l =>
    intro hnd
    obtain ⟨a, b⟩ := p
    obtain ⟨c, d⟩ := q
    have hne : c ≠ a := by
      have h0 := (List.nodup_cons.mp hnd).1
      simp [keysOf] at h0
      exact h0.1
    by_cases h1 : k = c
    · subst h1
      simp [hne]
    · by_cases h2 : k = a
      · subst h2
        simp [h1]
      · simp [h1, h2]
  | trans h₁ h₂ ih₁ ih₂ =>
    intro hnd
    have hmid : NodupKeys _ := (h₁.map Prod.fst).nodup hnd
    exact (ih₁ hnd).trans (ih₂ hmid)

theorem getV_perm {o o' : Obj} (h : o.Perm o') (hnd : NodupKeys o) (k : String) :
    getV o k = getV o' k := by
  rw [getV, getV, getVOpt_perm h k hnd]

theorem toQueryString_perm {o o' : Obj} (h : o.Perm o') (hnd : NodupKeys o) :
    toQueryString o = toQueryString o' := by
  unfold toQueryString
  have hget : ∀ k, getV o k = getV o' k := getV_perm h hnd
  have hpred : (fun k => keepVal (getV o k)) = (fun k => keepVal (getV o' k)) :=
    funext fun k => by rw [hget k]
  have hfilter : ((keysOf o).filter (fun k => keepVal (getV o k))).Perm
      ((keysOf o').filter (fun k => keepVal (getV o' k))) := by
    rw [hpred]
    exact (h.map Prod.fst).filter _
  rw [sortKeys_eq_of_perm hfilter]
  have hmap : (fun k => k ++ "=" ++ jstr (getV o k)) =
      (fun k => k ++ "=" ++ jstr (getV o' k)) :=
    funext fun k => by rw [hget k]
  rw [hmap]

theorem eraseKey_perm {o o' : Obj} (h : o.Perm o') (k : String) :
    (eraseKey o k).Perm (eraseKey o' k) :=
  h.filter _

theorem eraseKey_sublist (o : Obj) (k : String) : (eraseKey o k).Sublist o :=
  List.filter_sublist o

theorem nodupKeys_eraseKey {o : Obj} (k : String) (h : NodupKeys o) :
    NodupKeys (eraseKey o k) :=
  List.Nodup.sublist ((eraseKey_sublist o k).map Prod.fst) h

theorem getSign_perm {o o' : Obj} (digest : Digest) (key : String)
    (st : Option SignAlg) (h : o.Perm o') (hnd : NodupKeys o) :
    getSign digest key o st = getSign digest key o' st := by
  simp only [getSign]
  rw [toQueryString_perm (eraseKey_perm h "sign") (nodupKeys_eraseKey "sign" hnd)]

/-! ### The signature ignores the `sign` key -/

theorem eraseKey_append (o o₂ : Obj) (k : String) :
    eraseKey (o ++ o₂) k = eraseKey o k ++ eraseKey o₂ k := by
  unfold eraseKey
  exact List.filter_append o o₂

theorem eraseKey_mapReplace (o : Obj) (k : String) (v : JVal) :
    eraseKey (o.map (fun p => if p.1 = k then (k, v) else p)) k = eraseKey o k := by
  induction o with
  | nil => rfl
  | cons p rest ih =>
    obtain ⟨a, b⟩ := p
    by_cases h : a = k
    · subst h
      simp [eraseKey] at ih ⊢
      exact ih
    · simp [eraseKey, h] at ih ⊢
      exact ih

theorem eraseKey_setKey (o : Obj) (k : String) (v : JVal) :
    eraseKey (setKey o k v) k = eraseKey o k := by
  rw [setKey]
  by_cases hs : (getVOpt o k).isSome = true
  · rw [if_pos hs, eraseKey_mapReplace]
  · rw [if_neg hs, eraseKey_append]
    simp [eraseKey]

theorem eraseKey_idem (o : Obj) (k : String) :
    eraseKey (eraseKey o k) k = eraseKey o k := by
  unfold eraseKey
  rw [List.filter_filter]
  congr 1
  funext p
  exact Bool.and_self _

theorem getSign_setKey_sign (digest : Digest) (key : String) (o : Obj) (v : JVal)
    (st : Option SignAlg) :
    getSign digest key (setKey o "sign" v) st = getSign digest key o st := by
  unfold getSign
  rw [eraseKey_setKey]

theorem getSign_eraseKey_sign (digest : Digest) (key : String) (o : Obj)
    (st : Option SignAlg) :
    getSign digest key (eraseKey o "sign") st = getSign digest key o st := by
  unfold getSign
  rw [eraseKey_idem]

/-! ### Coercion to strings preserves the canonical form -/

theorem toDigitsCore_ne_nil (b : Nat) (f : Nat) :
    ∀ (n : Nat) (ds : List Char), ds ≠ [] → Nat.toDigitsCore b f n ds ≠ [] := by
  induction f with
  | zero =>
    intro n ds h
    simpa [Nat.toDigitsCore] using h
  | succ f ih =>
    intro n ds h
    rw [Nat.toDigitsCore]
    by_cases hz : n / b = 0
    · simp [hz]
    · simp [hz]
      exact ih (n / b) _ (by simp)

theorem toDigits_ne_nil (b n : Nat) : Nat.toDigits b n ≠ [] := by
  rw [Nat.toDigits, Nat.toDigitsCore]
  by_cases hz : n / b = 0
  · simp [hz]
  · simp [hz]
    exact toDigitsCore_ne_nil b n (n / b) _ (by simp)

theorem nat_repr_ne_empty (n : Nat) : Nat.repr n ≠ "" := by
  intro h
  have hdata := congrArg String.data h
  simp [Nat.repr, List.asString] at hdata
  exact toDigits_ne_nil 10 n hdata

theorem int_repr_ne_empty (n : Int) : Int.repr n ≠ "" := by
  cases n with
  | ofNat m => exact nat_repr_ne_empty m
  | negSucc m =>
    intro h
    have hdata := congrArg String.data h
    rw [Int.repr] at hdata
    simp [String.data] at hdata

theorem jstr_num_ne_empty (n : Int) : jstr (JVal.num n) ≠ "" :=
  int_repr_ne_empty n

theorem keepVal_coerceVal (v : JVal) : keepVal (coerceVal v) = keepVal v := by
  cases v with
  | undef => rfl
  | null => rfl
  | str s => rfl
  | num n =>
    show (!(jstr (JVal.num n) == "")) = true
    simp [jstr_num_ne_empty n]
  | bool b => cases b <;> rfl

theorem jstr_coerceVal (v : JVal) : jstr (coerceVal v) = jstr v := by
  cases v <;> rfl

theorem keysOf_coerceObj (o : Obj) : keysOf (coerceObj o) = keysOf o := by
  simp [keysOf, coerceObj]

theorem getVOpt_coerceObj (o : Obj) (k : String) :
    getVOpt (coerceObj o) k = (getVOpt o k).map coerceVal := by
  induction o with
  | nil => rfl
  | cons p rest ih =>
    obtain ⟨a, b⟩ := p
    by_cases h : k = a
    · simp [coerceObj, h]
    · simp [coerceObj, h] at ih ⊢
      exact ih

theorem eraseKey_coerceObj (o : Obj) (k : String) :
    eraseKey (coerceObj o) k = coerceObj (eraseKey o k) := by
  induction o with
  | nil => rfl
  | cons p rest ih =>
    obtain ⟨a, b⟩ := p
    by_cases h : a = k
    · simp [coerceObj, eraseKey, h] at ih ⊢
      exact ih
    · simp [coerceObj, eraseKey, h] at ih ⊢
      exact ih

theorem getV_coerceObj_keep (o : Obj) (k : String) :
    keepVal (getV (coerceObj o) k) = keepVal (getV o k) := by
  rw [getV, getV, getVOpt_coerceObj]
  cases getVOpt o k with
  | none => rfl
  | some v => simp [keepVal_coerceVal]

theorem getV_coerceObj_jstr (o : Obj) (k : String) :
    jstr (getV (coerceObj o) k) = jstr (getV o k) := by
  rw [getV, getV, getVOpt_coerceObj]
  cases getVOpt o k with
  | none => rfl
  | some v => simp [jstr_coerceVal]

theorem toQueryString_coerceObj (o : Obj) :
    toQueryString (coerceObj o) = toQueryString o := by
  unfold toQueryString
  rw [keysOf_coerceObj]
  have h1 : (fun k => keepVal (getV (coerceObj o) k)) = (fun k => keepVal (getV o k)) :=
    funext fun k => getV_coerceObj_keep o k
  rw [h1]
  have h2 : (fun k => k ++ "=" ++ jstr (getV (coerceObj o) k)) =
      (fun k => k ++ "=" ++ jstr (getV o k)) :=
    funext fun k => by rw [getV_coerceObj_jstr o k]
  rw [h2]

theorem getSign_coerceObj (digest : Digest) (key : String) (o : Obj)
    (st : Option SignAlg) :
    getSign digest key (coerceObj o) st = getSign digest key o st := by
  simp only [getSign]
  rw [eraseKey_coerceObj, toQueryString_coerceObj]

/-! ### Commuting a key assignment past `extend` -/

theorem mapReplace_of_not_mem {o : Obj} {k : String} (v : JVal) (h : k ∉ keysOf o) :
    o.map (fun p => if p.1 = k then (k, v) else p) = o := by
  induction o with
  | nil => rfl
  | cons p rest ih =>
    obtain ⟨a, b⟩ := p
    have ha : a ≠ k := by
      intro hh
      exact h (by simp [keysOf, hh])
    have hrest : k ∉ keysOf rest := fun hm => h (by simp [keysOf] at hm ⊢; exact Or.inr hm)
    simp [ha, ih hrest]

theorem mem_keysOf_setKey_self (o : Obj) (k : String) (v : JVal) :
    k ∈ keysOf (setKey o k v) := by
  rw [keysOf_setKey]
  by_cases h : k ∈ keysOf o
  · rwa [if_pos h]
  · rw [if_neg h]
    simp

theorem mem_keysOf_setKey_of_mem {o : Obj} {s : String} (k : String) (v : JVal)
    (h : s ∈ keysOf o) : s ∈ keysOf (setKey o k v) := by
  rw [keysOf_setKey]
  by_cases hm : k ∈ keysOf o
  · rwa [if_pos hm]
  · rw [if_neg hm]
    simp [h]

theorem setKey_setKey_same (o : Obj) (k : String) (w v : JVal) :
    setKey (setKey o k w) k v = setKey o k v := by
  by_cases hs : (getVOpt o k).isSome = true
  · have h1 : setKey o k w = o.map (fun p => if p.1 = k then (k, w) else p) := by
      rw [setKey, if_pos hs]
    have h2 : (getVOpt (setKey o k w) k).isSome = true := by
      rw [getVOpt_setKey, if_pos rfl]
      rfl
    rw [setKey, if_pos h2, h1, List.map_map, setKey, if_pos hs]
    congr 1
    funext p
    by_cases hp : p.1 = k
    · simp [Function.comp, hp]
    · simp [Function.comp, hp]
  · have hnone : getVOpt o k = none := by
      cases hh : getVOpt o k
      · rfl
      · exact absurd (by simp [hh]) hs
    have h1 : setKey o k w = o ++ [(k, w)] := by
      rw [setKey, if_neg hs]
    have h2 : (getVOpt (setKey o k w) k).isSome = true := by
      rw [getVOpt_setKey, if_pos rfl]
      rfl
    have hnm : k ∉ keysOf o := getVOpt_eq_none_iff.mp hnone
    rw [setKey, if_pos h2, h1, List.map_append, mapReplace_of_not_mem v hnm, setKey, if_neg hs]
    simp

theorem setKey_comm_of_mem {o : Obj} {s k : String} (hs : s ∈ keysOf o) (hk : k ≠ s)
    (v u : JVal) : setKey (setKey o s v) k u = setKey (setKey o k u) s v := by
  have hssome : (getVOpt o s).isSome = true := getVOpt_isSome_iff.mpr hs
  have h1 : setKey o s v = o.map (fun p => if p.1 = s then (s, v) else p) := by
    rw [setKey, if_pos hssome]
  by_cases hkm : k ∈ keysOf o
  · have hksome : (getVOpt o k).isSome = true := getVOpt_isSome_iff.mpr hkm
    have h2 : setKey o k u = o.map (fun p => if p.1 = k then (k, u) else p) := by
      rw [setKey, if_pos hksome]
    have h3 : (getVOpt (setKey o s v) k).isSome = true := by
      rw [getVOpt_setKey, if_neg hk]
      exact hksome
    have h4 : (getVOpt (setKey o k u) s).isSome = true := by
      rw [getVOpt_setKey, if_neg (fun hh => hk hh.symm)]
      exact hssome
    have hsk : s ≠ k := fun hh => hk hh.symm
    rw [setKey, if_pos h3, h1, setKey, if_pos h4, h2, List.map_map, List.map_map]
    congr 1
    funext p
    obtain ⟨p1, p2⟩ := p
    by_cases hp : p1 = s
    · subst hp
      simp [Function.comp, hsk]
    · by_cases hq : p1 = k
      · subst hq
        simp [Function.comp, hk, hp]
      · simp [Function.comp, hp, hq]
  · have hknone : getVOpt o k = none := getVOpt_eq_none_iff.mpr hkm
    have h2 : setKey o k u = o ++ [(k, u)] := by
      rw [setKey, if_neg (by simp [hknone])]
    have h3 : getVOpt (setKey o s v) k = none := by
      rw [getVOpt_setKey, if_neg hk]
      exact hknone
    have h4 : (getVOpt (setKey o k u) s).isSome = true := by
      rw [getVOpt_setKey, if_neg (fun hh => hk hh.symm)]
      exact hssome
    rw [setKey, if_neg (by simp [h3]), h1, setKey, if_pos h4, h2, List.map_append]
    have h5 : [((k : String), u)].map (fun p => if p.1 = s then (s, v) else p) = [(k, u)] := by
      simp [hk]
    rw [h5]

theorem setKey_extend (rest : Obj) : ∀ (E : Obj) (s : String) (v : JVal),
    s ∈ keysOf E → s ∉ keysOf rest →
    extend (setKey E s v) rest = setKey (extend E rest) s v := by
  induction rest with
  | nil => intro E s v _ _; rfl
  | cons p rest' ih =>
    intro E s v hE hrest
    obtain ⟨k, u⟩ := p
    have hk : k ≠ s := by
      intro hh
      exact hrest (by simp [keysOf, hh])
    have hrest' : s ∉ keysOf rest' := fun hm => hrest (by simp [keysOf] at hm ⊢; exact Or.inr hm)
    show extend (setKey (setKey E s v) k u) rest' = setKey (extend (setKey E k u) rest') s v
    rw [setKey_comm_of_mem hE hk v u]
    exact ih (setKey E k u) s v (mem_keysOf_setKey_of_mem k u hE) hrest'

theorem extend_setKey {p : Obj} (D : Obj) (s : String) (v : JVal) (hnd : NodupKeys p) :
    extend D (setKey p s v) = setKey (extend D p) s v := by
  by_cases hmem : s ∈ keysOf p
  · induction p generalizing D with
    | nil => simp [keysOf] at hmem
    | cons q rest ih =>
      obtain ⟨a, b⟩ := q
      have hndrest : NodupKeys rest := (List.nodup_cons.mp hnd).2
      have hna : a ∉ keysOf rest := (List.nodup_cons.mp hnd).1
      by_cases ha : a = s
      · subst ha
        have hhead : setKey ((a, b) :: rest) a v = (a, v) :: rest := by
          rw [setKey, if_pos (by simp)]
          simp [mapReplace_of_not_mem v hna]
        rw [hhead]
        show extend (setKey D a v) rest = setKey (extend (setKey D a b) rest) a v
        rw [← setKey_extend rest (setKey D a b) a v (mem_keysOf_setKey_self D a b) hna,
          setKey_setKey_same]
      · have hsrest : s ∈ keysOf rest := by
          have hmem' : s ∈ a :: keysOf rest := hmem
          rcases List.mem_cons.mp hmem' with h1 | h1
          · exact absurd h1.symm ha
          · exact h1
        have hhead : setKey ((a, b) :: rest) s v = (a, b) :: setKey rest s v := by
          have hcond : (getVOpt ((a, b) :: rest) s).isSome = true := by
            rw [getVOpt_cons, if_neg (fun hh => ha hh.symm)]
            exact getVOpt_isSome_iff.mpr hsrest
          rw [setKey, if_pos hcond, setKey, if_pos (getVOpt_isSome_iff.mpr hsrest)]
          simp [ha]
        rw [hhead]
        show extend (setKey D a b) (setKey rest s v) = setKey (extend (setKey D a b) rest) s v
        exact ih (setKey D a b) hndrest hsrest
  · have happ : setKey p s v = p ++ [(s, v)] := by
      rw [setKey, if_neg (by simp [getVOpt_eq_none_iff.mpr hmem])]
    rw [happ, extend, List.foldl_append]
    rfl

/-! ### Spec-side definitions

Each `...PerSpec` / `...Claim...` definition below follows the wording of
the specification (or of a claim derived from it), to be compared with the
definitions translated from the source. -/

/-- Sorting commutes with filtering the key list. -/
theorem sortKeys_filter (p : String → Bool) (l : List String) :
    sortKeys (l.filter p) = (sortKeys l).filter p := by
  apply @List.eq_of_perm_of_sorted String strLeP _ _ _
  · exact (sortKeys_perm _).trans ((sortKeys_perm l).filter p).symm
  · exact sortKeys_sorted _
  · exact List.Pairwise.filter p (sortKeys_sorted l)

/-- Claim C1: for every field mapping and secret, `_getSign` clones the
mapping, removes any `sign` key, canonicalizes it, appends
`&key=<secret>`, digests with the selected algorithm (MD5 by default,
SHA1 selectable) and uppercases the hex digest; the returned value
equals that uppercased digest. -/
theorem C1_getSign_refines_spec (digest : Digest) (secret : String) (fields : Obj)
    (alg : Option SignAlg) :
    getSign digest secret fields alg = signPerSpec digest secret fields alg := rfl

/-- Claim C3 counterexample: a `null` value is not omitted by
`_toQueryString` — it is rendered as the string `null`, while the claim
as stated would omit the key entirely. -/
theorem C3_counterexample :
    toQueryString [("a", JVal.null)] = "a=null" ∧
    toQueryStringClaimC3 [("a", JVal.null)] = "" := ⟨rfl, rfl⟩

/-- Claim C3 (amended): the canonical encoder renders `k=v` pairs with
keys sorted ascending, omitting keys whose value is `undefined` or the
empty string (a `null` value is kept and rendered as `null`), values in
their plain string form; the result is independent of insertion order. -/
theorem C3_amended_canonical_encoder (o o' : Obj) (h : o.Perm o') (hnd : NodupKeys o) :
    toQueryString o = toQueryStringAmendedC3 o ∧ toQueryString o = toQueryString o' := by
  constructor
  · unfold toQueryString toQueryStringAmendedC3
    rw [sortKeys_filter]
  · exact toQueryString_perm h hnd

/-- Witness for the amended claim C3 at a concrete reordered mapping. -/
theorem C3_amended_witness :
    ([("b", JVal.num 2), ("a", JVal.num 1)] : Obj).Perm [("a", JVal.num 1), ("b", JVal.num 2)] ∧
    NodupKeys [("b", JVal.num 2), ("a", JVal.num 1)] ∧
    (toQueryString [("b", JVal.num 2), ("a", JVal.num 1)] =
        toQueryStringAmendedC3 [("b", JVal.num 2), ("a", JVal.num 1)] ∧
      toQueryString [("b", JVal.num 2), ("a", JVal.num 1)] =
        toQueryString [("a", JVal.num 1), ("b", JVal.num 2)]) :=
  ⟨List.Perm.swap _ _ _, by decide,
    C3_amended_canonical_encoder _ _ (List.Perm.swap _ _ _) (by decide)⟩

/-- Claim C4: mappings with identical key sets and values (in any
insertion order) yield the same signature, and adding or removing a
`sign` key leaves the computed signature unchanged. -/
theorem C4_signature_invariance (digest : Digest) (secret : String) (o o' : Obj)
    (v : JVal) (st : Option SignAlg) (h : o.Perm o') (hnd : NodupKeys o) :
    getSign digest secret o st = getSign digest secret o' st ∧
    getSign digest secret (setKey o "sign" v) st = getSign digest secret o st ∧
    getSign digest secret (eraseKey o "sign") st = getSign digest secret o st :=
  ⟨getSign_perm digest secret st h hnd,
    getSign_setKey_sign digest secret o v st,
    getSign_eraseKey_sign digest secret o st⟩

/-- Witness for claim C4 at a concrete reordered mapping. -/
theorem C4_witness :
    getSign cexDigest "KEY" [("b", JVal.num 2), ("a", JVal.num 1)] none =
        getSign cexDigest "KEY" [("a", JVal.num 1), ("b", JVal.num 2)] none ∧
    getSign cexDigest "KEY" (setKey [("b", JVal.num 2), ("a", JVal.num 1)] "sign" (JVal.str "XX")) none =
        getSign cexDigest "KEY" [("b", JVal.num 2), ("a", JVal.num 1)] none ∧
    getSign cexDigest "KEY" (eraseKey [("b", JVal.num 2), ("a", JVal.num 1)] "sign") none =
        getSign cexDigest "KEY" [("b", JVal.num 2), ("a", JVal.num 1)] none :=
  C4_signature_invariance cexDigest "KEY" _ _ (JVal.str "XX") none
    (List.Perm.swap _ _ _) (by decide)

/-- Claim C8: the signature computed on a mapping before string coercion
equals the signature computed after coercing every non-null,
non-undefined value to its string form. -/
theorem C8_sign_commutes_with_coercion (digest : Digest) (secret : String) (o : Obj)
    (st : Option SignAlg) :
    getSign digest secret (coerceObj o) st = getSign digest secret o st :=
  getSign_coerceObj digest secret o st

/-- Claim C9: default expansion sets on a fresh object only the
whitelisted keys holding a truthy account default, then overlays the
caller mapping, so caller-supplied values always win; in particular
`expand({mch_id:'X'}, ['mch_id'])` with account merchant id `Y` yields
`mch_id = 'X'`. -/
theorem C9_default_expansion (cfg : Config) (nonce : String) (params : Obj)
    (wl : List String) (k : String) (hnd : NodupKeys params) :
    (∀ v : JVal, getVOpt params k = some v →
      getVOpt (extendWithDefault cfg nonce params wl) k = some v) ∧
    (getVOpt params k = none →
      getVOpt (extendWithDefault cfg nonce params wl) k =
        (if k ∈ wl ∧ truthy (defaultsMap cfg nonce k) = true
          then some (defaultsMap cfg nonce k) else none)) ∧
    getVOpt (extendWithDefault cexConfigY "n" [("mch_id", JVal.str "X")] ["mch_id"]) "mch_id" =
      some (JVal.str "X") := by
  refine ⟨?_, ?_, by decide⟩
  · intro v hv
    rw [extendWithDefault, getVOpt_extend _ k hnd, hv]
  · intro hv
    rw [extendWithDefault, getVOpt_extend _ k hnd, hv, getVOpt_buildDefaults]

/-- Witness for claim C9 at the concrete whitelist and caller mapping. -/
theorem C9_witness :
    NodupKeys [("mch_id", JVal.str "X")] ∧
    ((∀ v : JVal, getVOpt [("mch_id", JVal.str "X")] "mch_id" = some v →
        getVOpt (extendWithDefault cexConfig "N" [("mch_id", JVal.str "X")] ["mch_id"]) "mch_id" =
          some v) ∧
      (getVOpt [("mch_id", JVal.str "X")] "mch_id" = none →
        getVOpt (extendWithDefault cexConfig "N" [("mch_id", JVal.str "X")] ["mch_id"]) "mch_id" =
          (if "mch_id" ∈ ["mch_id"] ∧ truthy (defaultsMap cexConfig "N" "mch_id") = true
            then some (defaultsMap cexConfig "N" "mch_id") else none)) ∧
      getVOpt (extendWithDefault cexConfigY "n" [("mch_id", JVal.str "X")] ["mch_id"]) "mch_id" =
        some (JVal.str "X")) :=
  ⟨by decide, C9_default_expansion cexConfig "N" _ ["mch_id"] "mch_id" (by decide)⟩

/-- A truthy value is neither `undefined` nor `null`, so the coercion
loop stringifies it. -/
theorem coerceVal_of_truthy {v : JVal} (h : truthy v = true) :
    coerceVal v = JVal.str (jstr v) := by
  cases v with
  | undef => simp [truthy] at h
  | null => simp [truthy] at h
  | str s => rfl
  | num n => rfl
  | bool b => rfl

/-- The `sign` binding of the processed parameters is the caller's
(coerced) `sign` value whenever the caller supplied a truthy one. -/
theorem getVOpt_signedQueryParams_sign (digest : Digest) (cfg : Config) (nonce : String)
    (encURI : String → String) (service : JVal) (params : Obj)
    (hnd : NodupKeys params) {v : JVal} (hv : getVOpt params "sign" = some v)
    (htr : truthy v = true) :
    getVOpt (signedQueryParams digest cfg nonce encURI service params) "sign" =
      some (JVal.str (jstr v)) := by
  simp only [signedQueryParams]
  set p1 := setKey params "service" service with hp1def
  set p2 := extendWithDefault cfg nonce p1 ["mch_id", "nonce_str", "sub_appid"] with hp2def
  set p3 := extend [("sign", JVal.str (getSign digest cfg.partnerKey p2 none))] p2 with hp3def
  have h1 : getVOpt p1 "sign" = some v := by
    rw [hp1def, getVOpt_setKey, if_neg (by decide), hv]
  have hnd1 : NodupKeys p1 := nodupKeys_setKey _ _ hnd
  have h2 : getVOpt p2 "sign" = some v := by
    rw [hp2def, extendWithDefault, getVOpt_extend _ _ hnd1, h1]
  have hnd2 : NodupKeys p2 := by
    rw [hp2def, extendWithDefault]
    exact nodupKeys_extend _ (nodupKeys_buildDefaults _ _)
  have h3 : getVOpt p3 "sign" = some v := by
    rw [hp3def, getVOpt_extend _ _ hnd2, h2]
  by_cases hlu : truthy (getV p3 "long_url") = true
  · rw [if_pos hlu, getVOpt_coerceObj, getVOpt_setKey, if_neg (by decide), h3]
    exact congrArg some (coerceVal_of_truthy htr)
  · rw [if_neg hlu, getVOpt_coerceObj, h3]
    exact congrArg some (coerceVal_of_truthy htr)

/-- Claim C10: when the caller's parameters already carry a truthy
`sign`, the mapping that is encoded and transported keeps the caller's
`sign` value (coerced to its string form), because the caller's
parameters are merged over the freshly computed signature. -/
theorem C10_caller_sign_wins (digest : Digest) (cfg : Config) (nonce : String)
    (encURI : String → String) (service : JVal) (params : Obj)
    (hnd : NodupKeys params) (h : truthy (getV params "sign") = true) :
    getVOpt (signedQueryParams digest cfg nonce encURI service params) "sign" =
      some (JVal.str (jstr (getV params "sign"))) := by
  obtain ⟨v, hv⟩ : ∃ v, getVOpt params "sign" = some v := by
    cases hh : getVOpt params "sign" with
    | none =>
      rw [getV, hh] at h
      simp [truthy] at h
    | some v => exact ⟨v, rfl⟩
  have hgv : getV params "sign" = v := by
    rw [getV, hv]
    rfl
  rw [hgv] at h ⊢
  exact getVOpt_signedQueryParams_sign digest cfg nonce encURI service params hnd hv h

/-- Witness for claim C10 at a concrete mapping carrying `sign`. -/
theorem C10_witness :
    NodupKeys [("sign", JVal.str "CALLER")] ∧
    truthy (getV [("sign", JVal.str "CALLER")] "sign") = true ∧
    getVOpt (signedQueryParams cexDigest cexConfig "N" id (JVal.str "svc")
        [("sign", JVal.str "CALLER")]) "sign" =
      some (JVal.str (jstr (getV [("sign", JVal.str "CALLER")] "sign"))) :=
  ⟨by decide, by decide,
    C10_caller_sign_wins cexDigest cexConfig "N" id (JVal.str "svc") _ (by decide) (by decide)⟩

/-- Claim C2: whenever at least one required group is unsatisfied in the
processed parameters, the operation returns the single aggregated error
naming every unsatisfied group, and neither transport is ever invoked. -/
theorem C2_validation_short_circuits (digest : Digest) (cfg : Config) (nonce : String)
    (encURI : String → String) (op : Op) (params : Obj)
    (h : runOpMissing digest cfg nonce encURI op params ≠ []) :
    runOp digest cfg nonce encURI op params =
      QueryResult.validationError
        ("missing params " ++
          String.intercalate "," (runOpMissing digest cfg nonce encURI op params)) ∧
    ∀ (secure : Bool) (payload : Obj),
      runOp digest cfg nonce encURI op params ≠ QueryResult.transported secure payload := by
  have hfalse : (runOpMissing digest cfg nonce encURI op params).isEmpty = false := by
    cases hm : runOpMissing digest cfg nonce encURI op params with
    | nil => exact absurd hm h
    | cons a t => rfl
  have hmain : runOp digest cfg nonce encURI op params =
      QueryResult.validationError
        ("missing params " ++
          String.intercalate "," (runOpMissing digest cfg nonce encURI op params)) := by
    show (if (runOpMissing digest cfg nonce encURI op params).isEmpty = true
        then QueryResult.transported (opHttps op) (runOpParams digest cfg nonce encURI op params)
        else QueryResult.validationError
          ("missing params " ++
            String.intercalate "," (runOpMissing digest cfg nonce encURI op params))) =
      QueryResult.validationError
        ("missing params " ++
          String.intercalate "," (runOpMissing digest cfg nonce encURI op params))
    rw [hfalse, if_neg Bool.false_ne_true]
  refine ⟨hmain, fun secure payload hc => ?_⟩
  rw [hmain] at hc
  exact QueryResult.noConfusion hc

/-- Witness for claim C2: `orderQuery` with no parameters reports the
`transaction_id|out_trade_no` group and invokes no transport. -/
theorem C2_witness :
    runOpMissing cexDigest cexConfig "N" id Op.orderQuery [] ≠ [] ∧
    (runOp cexDigest cexConfig "N" id Op.orderQuery [] =
        QueryResult.validationError
          ("missing params " ++
            String.intercalate "," (runOpMissing cexDigest cexConfig "N" id Op.orderQuery [])) ∧
      ∀ (secure : Bool) (payload : Obj),
        runOp cexDigest cexConfig "N" id Op.orderQuery [] ≠
          QueryResult.transported secure payload) :=
  ⟨by decide, C2_validation_short_circuits cexDigest cexConfig "N" id Op.orderQuery [] (by decide)⟩

/-- Preprocessing keeps the keys of a well-formed mapping distinct. -/
theorem nodupKeys_opPre (cfg : Config) (nonce : String) (op : Op) (params : Obj)
    (h : NodupKeys params) : NodupKeys (opPre cfg nonce op params) := by
  cases op with
  | unifiedOrder => exact nodupKeys_setKey _ _ h
  | refund =>
    show NodupKeys (extendWithDefault cfg nonce params ["op_user_id"])
    rw [extendWithDefault]
    exact nodupKeys_extend _ (nodupKeys_buildDefaults _ _)
  | orderQuery => exact h
  | refundQuery => exact h
  | closeOrder => exact h

/-- The dispatcher `_signedQuery` equals the amended pipeline: setting `service` before
or after default expansion is interchangeable, and validation happens on
the signed, coerced mapping. -/
theorem signedQuery_eq_amendedOrder (digest : Digest) (cfg : Config) (nonce : String)
    (encURI : String → String) (service : JVal) (params : Obj)
    (https : Bool) (required : List String) (hnd : NodupKeys params) :
    signedQuery digest cfg nonce encURI service params https required =
      signedQueryAmendedOrder digest cfg nonce encURI service params https required := by
  have hcomm : extendWithDefault cfg nonce (setKey params "service" service)
        ["mch_id", "nonce_str", "sub_appid"] =
      setKey (extendWithDefault cfg nonce params ["mch_id", "nonce_str", "sub_appid"])
        "service" service := by
    rw [extendWithDefault, extendWithDefault]
    exact extend_setKey _ "service" service hnd
  simp only [signedQuery, signedQueryParams, signedQueryAmendedOrder]
  rw [hcomm]

/-- Claim C5 counterexample: with `transaction_id` equal to the number
`0`, the pipeline as claimed (validation before signing and coercion)
rejects the call, while the code coerces `0` to the truthy string `"0"`
first and transports. -/
theorem C5_counterexample :
    isValidationError (runOpClaimOrder cexDigest cexConfig "N" id Op.orderQuery
        [("transaction_id", JVal.num 0)]) = true ∧
    isValidationError (runOp cexDigest cexConfig "N" id Op.orderQuery
        [("transaction_id", JVal.num 0)]) = false ∧
    runOp cexDigest cexConfig "N" id Op.orderQuery [("transaction_id", JVal.num 0)] ≠
      runOpClaimOrder cexDigest cexConfig "N" id Op.orderQuery [("transaction_id", JVal.num 0)] := by
  refine ⟨by decide, by decide, fun h => ?_⟩
  exact absurd (congrArg isValidationError h) (by decide)

/-- Claim C5 (amended): every operation expands account defaults and
sets the `service` field (in either order — the results agree), computes
and injects the signature, URI-encodes `long_url`, coerces all values to
strings, and only then validates the required groups; validation failure
still prevents any transport, and otherwise the coerced signed mapping
is encoded and transported. -/
theorem C5_amended_pipeline_order (digest : Digest) (cfg : Config) (nonce : String)
    (encURI : String → String) (op : Op) (params : Obj) (hnd : NodupKeys params) :
    runOp digest cfg nonce encURI op params =
      runOpAmendedOrder digest cfg nonce encURI op params := by
  simp only [runOp, runOpAmendedOrder]
  exact signedQuery_eq_amendedOrder digest cfg nonce encURI _ _ _ _
    (nodupKeys_opPre cfg nonce op params hnd)

/-- Witness for the amended claim C5 on a concrete `closeOrder` call. -/
theorem C5_amended_witness :
    NodupKeys [("out_trade_no", JVal.str "T1")] ∧
    runOp cexDigest cexConfig "N" id Op.closeOrder [("out_trade_no", JVal.str "T1")] =
      runOpAmendedOrder cexDigest cexConfig "N" id Op.closeOrder [("out_trade_no", JVal.str "T1")] :=
  ⟨by decide,
    C5_amended_pipeline_order cexDigest cexConfig "N" id Op.closeOrder _ (by decide)⟩

/-- The behaviour of `validate` once the parser has succeeded. -/
theorem validate_ok (parse : String → Except String Json) (xml : String) (j : Json)
    (h : parse xml = Except.ok j) :
    validate parse xml =
      (match (if jsonTruthy j then jget j "xml" else some (Json.jobj [])) with
        | none => ValidateOutcome.thrown
        | some Json.jnull => ValidateOutcome.thrown
        | some data =>
          if jgetTruthy (jget data "pay_info") then ValidateOutcome.cb none data
          else ValidateOutcome.cb (some ⟨"missParamError", "请传入支付方式"⟩) data) := by
  unfold validate
  rw [h]

/-- Claim C6: a parse failure yields an `XMLParseError` whose data is
the raw unparsed body, and a well-parsed envelope whose `pay_info` field
is absent yields the `missParamError` domain error with the parsed
mapping as data, even though no transport or parse error occurred. -/
theorem C6_decode_errors (parse parse₂ : String → Except String Json)
    (xml xml₂ msg : String) (fields : List (String × Json)) (j : Json)
    (h1 : parse xml = Except.error msg)
    (h2 : parse₂ xml₂ = Except.ok j)
    (h3 : jsonTruthy j = true)
    (h4 : jget j "xml" = some (Json.jobj fields))
    (h5 : jget (Json.jobj fields) "pay_info" = none) :
    validate parse xml =
      ValidateOutcome.cb (some ⟨"XMLParseError", msg⟩) (Json.jstr xml) ∧
    validate parse₂ xml₂ =
      ValidateOutcome.cb (some ⟨"missParamError", "请传入支付方式"⟩) (Json.jobj fields) := by
  constructor
  · unfold validate
    rw [h1]
  · rw [validate_ok parse₂ xml₂ j h2, h3]
    simp only [if_true]
    rw [h4]
    show (if jgetTruthy (jget (Json.jobj fields) "pay_info") = true
        then ValidateOutcome.cb none (Json.jobj fields)
        else ValidateOutcome.cb (some ⟨"missParamError", "请传入支付方式"⟩) (Json.jobj fields)) =
      ValidateOutcome.cb (some ⟨"missParamError", "请传入支付方式"⟩) (Json.jobj fields)
    rw [h5]
    rfl

/-- Witness for claim C6 on concrete parser outcomes. -/
theorem C6_witness :
    parseFailCex "<bad" = Except.error "not xml" ∧
    parseOkCex "<resp/>" =
      Except.ok (Json.jobj [("xml", Json.jobj [("return_code", Json.jstr "SUCCESS")])]) ∧
    (validate parseFailCex "<bad" =
        ValidateOutcome.cb (some ⟨"XMLParseError", "not xml"⟩) (Json.jstr "<bad") ∧
      validate parseOkCex "<resp/>" =
        ValidateOutcome.cb (some ⟨"missParamError", "请传入支付方式"⟩)
          (Json.jobj [("return_code", Json.jstr "SUCCESS")])) :=
  ⟨rfl, rfl,
    C6_decode_errors parseFailCex parseOkCex "<bad" "<resp/>" "not xml"
      [("return_code", Json.jstr "SUCCESS")]
      (Json.jobj [("xml", Json.jobj [("return_code", Json.jstr "SUCCESS")])])
      rfl rfl rfl rfl rfl⟩

/-- Claim C7 counterexample: on the claimed input the statistics row is
keyed by the cells of the second-to-last row (`toArr` reuses its first
row as titles), not by the global titles `h1`,`h2`; in particular
`stat` has no `h1` key at all. -/
theorem C7_counterexample :
    (parseCsv csvClaimInput).map (fun r => r.stat) =
      some (some [("s1`A", JVal.str "C"), ("s2`B", JVal.str "D")]) ∧
    (parseCsv csvClaimInput).map (fun r => getVOpt (r.stat.getD []) "h1") =
      some none := ⟨rfl, rfl⟩

/-- Claim C7 (amended): the CSV decoder splits on line breaks, uses the
first row as column titles for the data body, removes the final two rows
and parses them as their own two-row table — whose first row serves as
the stat titles — and takes each cell's value as the text after its
first backquote; on the claimed input the list is `[{h1:'1',h2:'2'}]`
and the stat row is keyed `s1`A ↦ 'C', `s2`B ↦ 'D'. -/
theorem C7_amended_parseCsv :
    parseCsv csvClaimInput =
      some ⟨[[("h1", JVal.str "1"), ("h2", JVal.str "2")]],
        some [("s1`A", JVal.str "C"), ("s2`B", JVal.str "D")]⟩ := rfl
